import Mathlib

/-!
# Verification of the Swedish flashcard app core
Shallow embedding of `src/flashcard_web_app.py`: the vocabulary store
(load / save / exists / add), the two-stage selection engine
(`select_random_mixture`, cooldown filter, draw), the category-scoped
draw, and the bulk admin mutator.  Randomness (`random.sample`,
`random.shuffle`, `random.choice`) is modelled by oracle parameters
constrained exactly by those primitives' contracts.
-/

namespace Flashcards

/-- A fully populated vocabulary item, as the in-memory dictionaries look
after `load_words` normalization: fields `swedish`, `english`, `category`,
`label`, `seen`. -/
structure Item where
  swedish : String
  english : String
  category : String
  label : String
  seen : Nat
deriving DecidableEq, Repr

instance : Inhabited Item := ⟨⟨"", "", "", "", 0⟩⟩

/-- A persisted item as found in `swedish_words.json`: `label` and `seen`
may be absent (`none`) before the self-healing migration in `load_words`. -/
structure RawItem where
  swedish : String
  english : String
  category : String
  label : Option String
  seen : Option Nat
deriving DecidableEq, Repr

/-- The persisted store: `none` when `DATA_FILE` does not exist,
`some ws` when it holds the (parsed) list `ws`. -/
abbrev Store := Option (List RawItem)

/-- The normalization `load_words` applies to each item:
`if "label" not in w: w["label"] = "0%"` and
`if "seen" not in w: w["seen"] = 0`. -/
def normalizeItem (w : RawItem) : RawItem :=
  { w with label := some (w.label.getD "0%"), seen := some (w.seen.getD 0) }

/-- `save_words(words)`: rewrites the whole file with `words`. -/
def save_words (ws : List RawItem) : Store := some ws

/-- `load_words()`: returns `[]` when the file is missing; otherwise parses
the list, fills defaults for missing `label` / `seen` and immediately
persists the normalized list.  Returns (in-memory list, store after). -/
def load_words (store : Store) : List RawItem × Store :=
  match store with
  | none => ([], none)
  | some ws =>
      let ws2 := ws.map normalizeItem
      (ws2, save_words ws2)

/-- Python's `str.lower()`: lower-case the characters one by one. -/
def strLower (s : String) : String := String.mk (s.data.map Char.toLower)

/-- `word_exists(swedish_word)`: case-insensitive membership test via a
fresh `load_words()` call (which itself persists the normalization).
Returns (answer, store after). -/
def word_exists (store : Store) (k : String) : Bool × Store :=
  let ls := load_words store
  (ls.1.any (fun w => strLower w.swedish == strLower k), ls.2)

/-- `add_word(swedish, english, category)`: `False` without appending when
the key already exists; otherwise append `{label: "0%", seen: 0}` and save. -/
def add_word (store : Store) (sw en cat : String) : Bool × Store :=
  let ex := word_exists store sw
  if ex.1 then (false, ex.2)
  else
    let ls := load_words ex.2
    (true, save_words (ls.1 ++ [⟨sw, en, cat, some "0%", some 0⟩]))

/-! ## Selection engine, Stage A: `select_random_mixture(words, ratios)`

Python list elements are object references; an item is identified by its
index in `words`, so the pipeline works on `words.enum` pairs
`(index, item)`.  `ratios` is a dict, modelled as an association list with
(for dict faithfulness) no duplicate keys where that matters. -/

/-- The keys of the `ratios` dict. -/
def ratioKeys (rs : List (String × ℚ)) : List String := rs.map Prod.fst

/-- `pool = [w for w in words if w["label"] in ratios]`. -/
def mixturePool (words : List Item) (rs : List (String × ℚ)) : List (ℕ × Item) :=
  words.enum.filter (fun c => (ratioKeys rs).contains c.2.label)

/-- `lw = [w for w in pool if w["label"] == label]`. -/
def labelBucket (words : List Item) (rs : List (String × ℚ)) (L : String) :
    List (ℕ × Item) :=
  (mixturePool words rs).filter (fun c => c.2.label == L)

/-- `count = max(1, int(len(pool) * ratio))`.  `int` truncates toward zero;
for the values reaching `max(1, ·)` this coincides with
`max 1 ⌊len(pool) * ratio⌋` (both are 1 whenever the product is below 1). -/
def labelCount (words : List Item) (rs : List (String × ℚ)) (r : ℚ) : ℕ :=
  max 1 (Int.toNat ⌊((mixturePool words rs).length : ℚ) * r⌋)

/-- The contract of `random.sample(l, k)` (called only with `k ≤ len l`):
the result is some `k` of `l`'s elements without replacement, in some
order — a permutation of a sublist, of length `min k (len l)`. -/
def SampOK (samp : List (ℕ × Item) → ℕ → List (ℕ × Item)) : Prop :=
  ∀ l k, (samp l k).Subperm l ∧ (samp l k).length = min k l.length

/-- The contract of `random.shuffle`: a permutation of its input. -/
def ShufOK (shuf : List (ℕ × Item) → List (ℕ × Item)) : Prop :=
  ∀ l, (shuf l).Perm l

/-- The contract of `random.choice`: an element of its (non-empty) input. -/
def PickOK (pick : List (ℕ × Item) → ℕ × Item) : Prop :=
  ∀ l, l ≠ [] → pick l ∈ l

/-- The per-label contribution
`random.sample(lw, min(len(lw), count))` for one `(label, ratio)` pair. -/
def labelSample (samp : List (ℕ × Item) → ℕ → List (ℕ × Item))
    (words : List Item) (rs : List (String × ℚ)) (L : String) (r : ℚ) :
    List (ℕ × Item) :=
  samp (labelBucket words rs L)
    (min (labelBucket words rs L).length (labelCount words rs r))

/-- `select_random_mixture(words, ratios)`: per-label samples accumulated
with `result.extend(...)` over `ratios.items()`, then `random.shuffle`. -/
def select_random_mixture (words : List Item) (rs : List (String × ℚ))
    (samp : List (ℕ × Item) → ℕ → List (ℕ × Item))
    (shuf : List (ℕ × Item) → List (ℕ × Item)) : List (ℕ × Item) :=
  shuf (rs.foldl (fun acc p => acc ++ labelSample samp words rs p.1 p.2) [])

/-! ## Selection engine, Stages B and C: cooldown filter and draw -/

/-- `COOLDOWN_SECONDS = 300`. -/
def COOLDOWN_SECONDS : ℚ := 300

/-- The session cooldown dict `st.session_state.recently_seen`:
exposure key ↦ timestamp of last presentation. -/
abbrev CooldownMap := String → Option ℚ

/-- The prune on every query:
`{w: t for w, t in recently_seen.items() if now - t < COOLDOWN_SECONDS}`. -/
def pruneMap (m : CooldownMap) (now : ℚ) : CooldownMap :=
  fun k =>
    match m k with
    | some t => if now - t < COOLDOWN_SECONDS then some t else none
    | none => none

/-- `available_words = [w for w in select_random_mixture(words, ratios)
if w[identityField] not in recently_seen]`, where `m` is the session map
after the prune and `ident` picks the exposure-identity field
(`swedish` in Swedish→English mode, `english` in English→Swedish mode). -/
def availableWords (words : List Item) (rs : List (String × ℚ))
    (samp : List (ℕ × Item) → ℕ → List (ℕ × Item))
    (shuf : List (ℕ × Item) → List (ℕ × Item))
    (m : CooldownMap) (ident : Item → String) : List (ℕ × Item) :=
  (select_random_mixture words rs samp shuf).filter
    (fun c => (m (ident c.2)).isNone)

/-- Everything a draw-button press can change: the signal (`selected`),
the in-memory list, what (if anything) was written by `save_words`
(`none` = no write), and the session cooldown map. -/
structure DrawOutcome where
  selected : Option (ℕ × Item)
  words : List Item
  persisted : Option (List Item)
  cooldown : CooldownMap

/-- The `Draw New Word` button handler (and its English-mode twin): given
the already-computed `available_words` and the already-pruned session map,
either pick a word, bump its `seen`, save, and stamp the map at its
exposure identity with `now` — or warn and touch nothing. -/
def drawButton (avail : List (ℕ × Item)) (words : List Item)
    (m : CooldownMap) (now : ℚ) (ident : Item → String)
    (pick : List (ℕ × Item) → ℕ × Item) : DrawOutcome :=
  if avail.isEmpty then ⟨none, words, none, m⟩
  else
    let sel := pick avail
    let w2 : Item := { sel.2 with seen := sel.2.seen + 1 }
    ⟨some sel, words.set sel.1 w2, some (words.set sel.1 w2),
      fun k => if k = ident sel.2 then some now else m k⟩

/-- A full mixture-mode draw interaction (lines 131–153 resp. 278–296):
prune the session map, run Stage A, filter by the pruned map, then the
button handler over the pruned map. -/
def drawMixed (words : List Item) (rs : List (String × ℚ))
    (samp : List (ℕ × Item) → ℕ → List (ℕ × Item))
    (shuf : List (ℕ × Item) → List (ℕ × Item))
    (m : CooldownMap) (now : ℚ) (ident : Item → String)
    (pick : List (ℕ × Item) → ℕ × Item) : DrawOutcome :=
  drawButton (availableWords words rs samp shuf (pruneMap m now) ident)
    words (pruneMap m now) now ident pick

/-- `filtered_words = [w for w in words if w["category"] == selected_category]`. -/
def categoryFiltered (words : List Item) (c : String) : List (ℕ × Item) :=
  words.enum.filter (fun iw => iw.2.category == c)

/-- The `Draw Word from Category` button handler: uniform pick from the
category filter, bump `seen`, save; the ratio mixture plays no part and
the session cooldown map is neither consulted nor stamped. -/
def drawByCategory (words : List Item) (c : String) (m : CooldownMap)
    (pick : List (ℕ × Item) → ℕ × Item) : DrawOutcome :=
  if (categoryFiltered words c).isEmpty then ⟨none, words, none, m⟩
  else
    let sel := pick (categoryFiltered words c)
    let w2 : Item := { sel.2 with seen := sel.2.seen + 1 }
    ⟨some sel, words.set sel.1 w2, some (words.set sel.1 w2), m⟩

/-! ## Bulk admin mutator (admin panel, lines 256–271) -/

/-- The eligibility test that decides whether an item gets a checkbox:
`label_match = not selected_labels or word["label"] in selected_labels`,
`seen_match = min_seen <= word["seen"] <= max_seen`,
shown iff `label_match or seen_match`. -/
def eligibleItem (sel : List String) (minS maxS : ℕ) (w : Item) : Bool :=
  (sel.isEmpty || sel.contains w.label) ||
    (decide (minS ≤ w.seen) && decide (w.seen ≤ maxS))

/-- `selected_indices`: the indices whose checkbox exists and is checked. -/
def selectedIndices (words : List Item) (sel : List String) (minS maxS : ℕ)
    (checked : ℕ → Bool) : List ℕ :=
  (List.range words.length).filter
    (fun i => eligibleItem sel minS maxS (words.getD i default) && checked i)

/-- Result of the bulk update: the mutated list and what `save_words` wrote. -/
structure BulkOutcome where
  words : List Item
  persisted : Option (List Item)

/-- The `Apply Label and Seen Value to Selected` handler:
`for idx in selected_indices: words[idx]["label"] = L; words[idx]["seen"] = S`
followed by a single `save_words(words)`. -/
def applyBulkUpdate (words : List Item) (sel : List String) (minS maxS : ℕ)
    (checked : ℕ → Bool) (newL : String) (newS : ℕ) : BulkOutcome :=
  let ws := (selectedIndices words sel minS maxS checked).foldl
    (fun ws i => ws.set i { ws.getD i default with label := newL, seen := newS })
    words
  ⟨ws, some ws⟩

/-! ## Concrete admissible oracles (used by the witnesses) -/

/-- A concrete admissible `random.sample` outcome: take the first `k`. -/
def sampTake (l : List (ℕ × Item)) (k : ℕ) : List (ℕ × Item) := l.take k

/-- A concrete admissible `random.shuffle` outcome: the identity. -/
def shufId (l : List (ℕ × Item)) : List (ℕ × Item) := l

/-- A concrete admissible `random.choice` outcome: the head. -/
def pickHead (l : List (ℕ × Item)) : ℕ × Item := l.headD default

/-- The frame condition of a successful draw: starting from `old`, the
occurrence `sel` (index, pre-draw item) is the only change — same length
and order, every other index untouched, and the chosen item keeps every
field except `seen`, which is bumped by exactly 1. -/
def frameCond (old new : List Item) (sel : ℕ × Item) : Prop :=
  new.length = old.length ∧
  old[sel.1]? = some sel.2 ∧
  new[sel.1]? = some { sel.2 with seen := sel.2.seen + 1 } ∧
  ({ sel.2 with seen := sel.2.seen + 1 }).swedish = sel.2.swedish ∧
  ({ sel.2 with seen := sel.2.seen + 1 }).english = sel.2.english ∧
  ({ sel.2 with seen := sel.2.seen + 1 }).category = sel.2.category ∧
  ({ sel.2 with seen := sel.2.seen + 1 }).label = sel.2.label ∧
  ({ sel.2 with seen := sel.2.seen + 1 }).seen = sel.2.seen + 1 ∧
  (∀ j : ℕ, j ≠ sel.1 → new[j]? = old[j]?)

/-! ## Concrete example data for closed instances -/

/-- A one-item vocabulary. -/
def wordsEx : List Item := [⟨"hund", "dog", "animal", "0%", 0⟩]

/-- A singleton ratio dict `{"0%": 1}`. -/
def rsEx : List (String × ℚ) := [("0%", 1)]

/-- A session map holding one stamp: `{"hund": 0}`. -/
def mapEx : CooldownMap := fun s => if s = "hund" then some 0 else none

/-! ## Oracle contract instances -/

theorem sampTake_ok : SampOK sampTake := by
  intro l k
  exact ⟨(List.take_sublist k l).subperm, List.length_take k l⟩

theorem shufId_ok : ShufOK shufId := fun l => List.Perm.refl l

theorem pickHead_ok : PickOK pickHead := by
  intro l h
  cases l with
  | nil => exact absurd rfl h
  | cons a t => exact List.mem_cons_self a t

/-! ## Store lemmas -/

theorem normalizeItem_fields (w : RawItem) :
    (normalizeItem w).swedish = w.swedish ∧
    (normalizeItem w).english = w.english ∧
    (normalizeItem w).category = w.category ∧
    (normalizeItem w).label = some (w.label.getD "0%") ∧
    (normalizeItem w).seen = some (w.seen.getD 0) :=
  ⟨rfl, rfl, rfl, rfl, rfl⟩

theorem normalizeItem_idem (w : RawItem) :
    normalizeItem (normalizeItem w) = normalizeItem w := by
  simp [normalizeItem]

theorem normalizeItem_eq_self (w : RawItem) (h1 : w.label.isSome)
    (h2 : w.seen.isSome) : normalizeItem w = w := by
  obtain ⟨s, e, c, lab, sn⟩ := w
  cases lab with
  | none => simp at h1
  | some a =>
      cases sn with
      | none => simp at h2
      | some b => simp [normalizeItem]

/-- C7: `load_words` on a missing store returns the empty vocabulary; on an
existing store it fills `label := "0%"` / `seen := 0` only where missing,
keeps all other fields and the order, and immediately persists the
normalized collection; loading twice with no intervening mutation yields
identical results (vocab and store). -/
theorem load_words_spec (store : Store) :
    load_words (load_words store).2 = load_words store ∧
    (store = none → load_words store = ([], none)) ∧
    (∀ ws, store = some ws →
      (load_words store).2 = some (load_words store).1 ∧
      (load_words store).1.length = ws.length ∧
      (∀ (i : ℕ) (w : RawItem), ws[i]? = some w →
        (load_words store).1[i]? =
          some (RawItem.mk w.swedish w.english w.category
            (some (w.label.getD "0%")) (some (w.seen.getD 0))))) := by
  refine ⟨?_, ?_, ?_⟩
  · cases store with
    | none => rfl
    | some ws =>
        have hmap : (ws.map normalizeItem).map normalizeItem =
            ws.map normalizeItem := by
          rw [List.map_map]
          exact List.map_congr_left fun w _ => normalizeItem_idem w
        simp [load_words, save_words, hmap]
  · intro h; subst h; rfl
  · intro ws h; subst h
    refine ⟨rfl, by simp [load_words, save_words], ?_⟩
    intro i w hw
    show (ws.map normalizeItem)[i]? = _
    rw [List.getElem?_map, hw]
    rfl

/-- Closed instance of `load_words_spec` at a store holding one item with
missing `label` and `seen`. -/
theorem load_words_spec_witness :
    load_words (load_words (some [⟨"katt", "cat", "animal", none, none⟩])).2 =
      load_words (some [⟨"katt", "cat", "animal", none, none⟩]) ∧
    (load_words (some [⟨"katt", "cat", "animal", none, none⟩])).1[0]? =
      some ⟨"katt", "cat", "animal", some "0%", some 0⟩ :=
  ⟨(load_words_spec (some [⟨"katt", "cat", "animal", none, none⟩])).1,
    ((load_words_spec (some [⟨"katt", "cat", "animal", none, none⟩])).2.2 _ rfl).2.2
      0 ⟨"katt", "cat", "animal", none, none⟩ rfl⟩

/-- C4 counterexample: on a store whose single item matches the key but
still lacks `label`/`seen`, the duplicate `add_word` returns `False` yet
the persisted collection is NOT unchanged — the `load_words` call inside
`word_exists` persists the self-healing normalization. -/
theorem add_word_changes_unnormalized_store :
    (add_word (some [⟨"hund", "dog", "animal", none, none⟩])
        "Hund" "dog" "animal").1 = false ∧
    (add_word (some [⟨"hund", "dog", "animal", none, none⟩])
        "Hund" "dog" "animal").2 ≠
      some [⟨"hund", "dog", "animal", none, none⟩] := by decide

/-- C4 (amended): a duplicate `add_word` (case-insensitive match) returns
`False` and appends nothing: the store afterwards is exactly the
normalization of the old one — same length, same keys in the same order —
and is literally unchanged whenever every item already carries `label` and
`seen`.  So no duplicate key is ever created via `add_word`. -/
theorem add_word_duplicate_noop (ws : List RawItem) (k en cat : String)
    (h : (word_exists (some ws) k).1 = true) :
    (add_word (some ws) k en cat).1 = false ∧
    (add_word (some ws) k en cat).2 = some (ws.map normalizeItem) ∧
    (ws.map normalizeItem).map RawItem.swedish = ws.map RawItem.swedish ∧
    ((∀ w ∈ ws, w.label.isSome ∧ w.seen.isSome) →
      (add_word (some ws) k en cat).2 = some ws) := by
  have hadd : add_word (some ws) k en cat =
      (false, (word_exists (some ws) k).2) := by
    simp [add_word, h]
  refine ⟨?_, ?_, ?_, ?_⟩
  · rw [hadd]
  · rw [hadd]
    rfl
  · rw [List.map_map]
    exact List.map_congr_left fun w _ => rfl
  · intro hall
    have hmap : ws.map normalizeItem = ws := by
      rw [List.map_congr_left fun w hw =>
        normalizeItem_eq_self w (hall w hw).1 (hall w hw).2]
      exact List.map_id ws
    rw [hadd]
    show some (ws.map normalizeItem) = some ws
    rw [hmap]

/-- Closed instance of `add_word_duplicate_noop`: the `add("Hund", …)` after
`add("hund", …)` scenario on a normalized store — second call returns
`False` and the store keeps exactly its one item. -/
theorem add_word_duplicate_noop_witness :
    (word_exists (some [⟨"hund", "dog", "animal", some "0%", some 0⟩])
        "Hund").1 = true ∧
    (add_word (some [⟨"hund", "dog", "animal", some "0%", some 0⟩])
        "Hund" "dog" "animal").1 = false ∧
    (add_word (some [⟨"hund", "dog", "animal", some "0%", some 0⟩])
        "Hund" "dog" "animal").2 =
      some [⟨"hund", "dog", "animal", some "0%", some 0⟩] :=
  ⟨by decide,
    (add_word_duplicate_noop [⟨"hund", "dog", "animal", some "0%", some 0⟩]
      "Hund" "dog" "animal" (by decide)).1,
    (add_word_duplicate_noop [⟨"hund", "dog", "animal", some "0%", some 0⟩]
      "Hund" "dog" "animal" (by decide)).2.2.2
      (by intro w hw; cases List.mem_singleton.1 hw; exact ⟨rfl, rfl⟩)⟩

/-! ## Stage A lemmas -/

theorem foldl_append_eq_flatMap {α β : Type} (f : α → List β) :
    ∀ (l : List α) (init : List β),
      l.foldl (fun acc p => acc ++ f p) init = init ++ l.flatMap f := by
  intro l
  induction l with
  | nil => intro init; simp
  | cons a t ih => intro init; simp [ih, List.append_assoc]

theorem select_random_mixture_perm (words : List Item)
    (rs : List (String × ℚ)) (samp : List (ℕ × Item) → ℕ → List (ℕ × Item))
    {shuf : List (ℕ × Item) → List (ℕ × Item)} (hsh : ShufOK shuf) :
    (select_random_mixture words rs samp shuf).Perm
      (rs.flatMap fun p => labelSample samp words rs p.1 p.2) := by
  have heq : rs.foldl (fun acc p => acc ++ labelSample samp words rs p.1 p.2) []
      = rs.flatMap fun p => labelSample samp words rs p.1 p.2 := by
    rw [foldl_append_eq_flatMap]
    exact List.nil_append _
  show (shuf (rs.foldl
    (fun acc p => acc ++ labelSample samp words rs p.1 p.2) [])).Perm _
  rw [heq]
  exact hsh _

theorem mem_select_random_mixture {words : List Item}
    {rs : List (String × ℚ)} {samp : List (ℕ × Item) → ℕ → List (ℕ × Item)}
    {shuf : List (ℕ × Item) → List (ℕ × Item)} (hsh : ShufOK shuf)
    (c : ℕ × Item) :
    c ∈ select_random_mixture words rs samp shuf ↔
      ∃ p ∈ rs, c ∈ labelSample samp words rs p.1 p.2 := by
  rw [(select_random_mixture_perm words rs samp hsh).mem_iff, List.mem_flatMap]

theorem mem_labelBucket {words : List Item} {rs : List (String × ℚ)}
    {L : String} {c : ℕ × Item} :
    c ∈ labelBucket words rs L ↔
      c ∈ words.enum ∧ (ratioKeys rs).contains c.2.label = true ∧
        c.2.label = L := by
  constructor
  · intro h
    have h1 := List.mem_filter.1 h
    have h2 := List.mem_filter.1 h1.1
    exact ⟨h2.1, h2.2, by simpa using h1.2⟩
  · rintro ⟨h1, h2, h3⟩
    exact List.mem_filter.2 ⟨List.mem_filter.2 ⟨h1, h2⟩, by simpa using h3⟩

theorem labelSample_subset {samp : List (ℕ × Item) → ℕ → List (ℕ × Item)}
    (hs : SampOK samp) (words : List Item) (rs : List (String × ℚ))
    (L : String) (r : ℚ) :
    labelSample samp words rs L r ⊆ labelBucket words rs L :=
  fun _ hc => (hs _ _).1.subset hc

theorem labelSample_length {samp : List (ℕ × Item) → ℕ → List (ℕ × Item)}
    (hs : SampOK samp) (words : List Item) (rs : List (String × ℚ))
    (L : String) (r : ℚ) :
    (labelSample samp words rs L r).length =
      min (labelBucket words rs L).length (labelCount words rs r) := by
  rw [labelSample, (hs _ _).2]
  omega

theorem subperm_nodup {l1 l2 : List (ℕ × Item)} (h : l1.Subperm l2)
    (h2 : l2.Nodup) : l1.Nodup := by
  obtain ⟨l, hp, hsub⟩ := h
  exact hp.nodup_iff.1 (hsub.nodup h2)

theorem enum_nodup (l : List Item) : l.enum.Nodup :=
  List.Nodup.of_map Prod.fst (List.nodup_enum_map_fst l)

theorem labelBucket_nodup (words : List Item) (rs : List (String × ℚ))
    (L : String) : (labelBucket words rs L).Nodup :=
  ((enum_nodup words).filter _).filter _

/-- C1: if label `L` is a key of the ratio dict (any weight, zero included)
and the pool's `L`-bucket is non-empty, Stage A outputs at least one item
labelled `L`; and each label's sample size is exactly
`min(len(bucket), max(1, floor(len(pool) * ratio)))`. -/
theorem mixture_floor {samp : List (ℕ × Item) → ℕ → List (ℕ × Item)}
    {shuf : List (ℕ × Item) → List (ℕ × Item)} (words : List Item)
    (rs : List (String × ℚ)) (L : String) (r : ℚ)
    (hs : SampOK samp) (hsh : ShufOK shuf)
    (hmem : (L, r) ∈ rs) (hne : labelBucket words rs L ≠ []) :
    (∃ c ∈ select_random_mixture words rs samp shuf, c.2.label = L) ∧
    ∀ (L' : String) (r' : ℚ),
      ((labelSample samp words rs L' r').length : ℤ) =
        min ((labelBucket words rs L').length : ℤ)
          (max 1 ⌊((mixturePool words rs).length : ℚ) * r'⌋) := by
  constructor
  · have hlen : (labelSample samp words rs L r).length =
        min (labelBucket words rs L).length (labelCount words rs r) :=
      labelSample_length hs words rs L r
    have hbpos : 0 < (labelBucket words rs L).length :=
      List.length_pos.2 hne
    have hcpos : 0 < labelCount words rs r := by
      simp [labelCount]
    have hspos : (labelSample samp words rs L r) ≠ [] := by
      rw [← List.length_pos, hlen]
      omega
    obtain ⟨c, hc⟩ := List.exists_mem_of_ne_nil _ hspos
    refine ⟨c, ?_, ?_⟩
    · exact (mem_select_random_mixture hsh c).2 ⟨(L, r), hmem, hc⟩
    · exact (mem_labelBucket.1 (labelSample_subset hs words rs L r hc)).2.2
  · intro L' r'
    rw [labelSample_length hs words rs L' r', labelCount]
    push_cast [Int.toNat_eq_max]
    omega

/-- Closed instance of `mixture_floor` on a one-item vocabulary with the
singleton ratio dict `{"0%": 1}`. -/
theorem mixture_floor_witness :
    (("0%", (1 : ℚ)) ∈ [("0%", (1 : ℚ))]) ∧
    ∃ c ∈ select_random_mixture [⟨"hund", "dog", "animal", "0%", 0⟩]
        [("0%", (1 : ℚ))] sampTake shufId, c.2.label = "0%" :=
  ⟨List.mem_singleton.2 rfl,
    (mixture_floor [⟨"hund", "dog", "animal", "0%", 0⟩] [("0%", (1 : ℚ))]
      "0%" 1 sampTake_ok shufId_ok (List.mem_singleton.2 rfl)
      (by decide)).1⟩

theorem mem_select_enum {words : List Item} {rs : List (String × ℚ)}
    {samp : List (ℕ × Item) → ℕ → List (ℕ × Item)}
    {shuf : List (ℕ × Item) → List (ℕ × Item)} (hs : SampOK samp)
    (hsh : ShufOK shuf) {c : ℕ × Item}
    (hc : c ∈ select_random_mixture words rs samp shuf) :
    c ∈ words.enum ∧ (ratioKeys rs).contains c.2.label = true := by
  obtain ⟨p, _, hp⟩ := (mem_select_random_mixture hsh c).1 hc
  have hb := mem_labelBucket.1 (labelSample_subset hs words rs p.1 p.2 hp)
  exact ⟨hb.1, hb.2.1⟩

/-- C9 (implicit): under the dict invariant that ratio keys are distinct,
the Stage A candidate list never repeats an item occurrence; with
pairwise-distinct items the item values are pairwise distinct too; and
every candidate is an occurrence in `words` whose label is a ratio key. -/
theorem stage_a_invariant {samp : List (ℕ × Item) → ℕ → List (ℕ × Item)}
    {shuf : List (ℕ × Item) → List (ℕ × Item)} (words : List Item)
    (rs : List (String × ℚ)) (hs : SampOK samp) (hsh : ShufOK shuf)
    (hk : (rs.map Prod.fst).Nodup) :
    (select_random_mixture words rs samp shuf).Nodup ∧
    (words.Nodup →
      ((select_random_mixture words rs samp shuf).map Prod.snd).Nodup) ∧
    (∀ c ∈ select_random_mixture words rs samp shuf,
      c.2 ∈ words ∧ (ratioKeys rs).contains c.2.label = true ∧
        c ∈ words.enum) := by
  have hperm := select_random_mixture_perm words rs samp hsh
  have hflat : (rs.flatMap fun p => labelSample samp words rs p.1 p.2).Nodup := by
    refine List.nodup_flatMap.2 ⟨?_, ?_⟩
    · intro p _
      exact subperm_nodup (hs _ _).1 (labelBucket_nodup words rs p.1)
    · have hne : rs.Pairwise fun p q => p.1 ≠ q.1 := List.pairwise_map.1 hk
      refine hne.imp ?_
      intro p q hpq c hcp hcq
      have h1 := (mem_labelBucket.1
        (labelSample_subset hs words rs p.1 p.2 hcp)).2.2
      have h2 := (mem_labelBucket.1
        (labelSample_subset hs words rs q.1 q.2 hcq)).2.2
      exact hpq (h1 ▸ h2 ▸ rfl)
  have hnodup : (select_random_mixture words rs samp shuf).Nodup :=
    hperm.nodup_iff.2 hflat
  refine ⟨hnodup, ?_, ?_⟩
  · intro hw
    refine List.Nodup.map_on ?_ hnodup
    intro x hx y hy hxy
    have hxe := (mem_select_enum hs hsh hx).1
    have hye := (mem_select_enum hs hsh hy).1
    have hx2 := List.mem_enum_iff_getElem?.1 hxe
    have hy2 := List.mem_enum_iff_getElem?.1 hye
    have hlt : x.1 < words.length := (List.getElem?_eq_some.1 hx2).1
    have heq : x.1 = y.1 := by
      refine List.getElem?_inj hlt hw ?_
      rw [hx2, hy2, hxy]
    exact Prod.ext heq hxy
  · intro c hc
    have h := mem_select_enum hs hsh hc
    have h2 := List.mem_enum_iff_getElem?.1 h.1
    obtain ⟨hlt, hg⟩ := List.getElem?_eq_some.1 h2
    exact ⟨hg ▸ List.getElem_mem hlt, h.2, h.1⟩

/-- Closed instance of `stage_a_invariant` on a two-item vocabulary with
ratio dict `{"0%": 1, "25%": 0}`. -/
theorem stage_a_invariant_witness :
    ((([("0%", (1 : ℚ)), ("25%", 0)]).map Prod.fst).Nodup) ∧
    (select_random_mixture
      [⟨"hund", "dog", "animal", "0%", 0⟩, ⟨"katt", "cat", "animal", "25%", 2⟩]
      [("0%", (1 : ℚ)), ("25%", 0)] sampTake shufId).Nodup :=
  ⟨by decide,
    (stage_a_invariant
      [⟨"hund", "dog", "animal", "0%", 0⟩, ⟨"katt", "cat", "animal", "25%", 2⟩]
      [("0%", (1 : ℚ)), ("25%", 0)] sampTake_ok shufId_ok (by decide)).1⟩

/-! ## Cooldown lemmas -/

theorem pruneMap_keep {m : CooldownMap} {k : String} {T now : ℚ}
    (hm : m k = some T) (h : now < T + COOLDOWN_SECONDS) :
    pruneMap m now k = some T := by
  have hlt : now - T < COOLDOWN_SECONDS := by linarith
  simp [pruneMap, hm, hlt]

theorem pruneMap_drop {m : CooldownMap} {k : String} {T now : ℚ}
    (hm : m k = some T) (h : T + COOLDOWN_SECONDS ≤ now) :
    pruneMap m now k = none := by
  have hge : ¬(now - T < COOLDOWN_SECONDS) := by
    intro hc
    linarith
  simp [pruneMap, hm, hge]

theorem drawButton_nil (words : List Item) (m : CooldownMap) (now : ℚ)
    (ident : Item → String) (pick : List (ℕ × Item) → ℕ × Item) :
    drawButton [] words m now ident pick = ⟨none, words, none, m⟩ := rfl

theorem drawButton_of_ne_nil (avail : List (ℕ × Item)) (words : List Item)
    (m : CooldownMap) (now : ℚ) (ident : Item → String)
    (pick : List (ℕ × Item) → ℕ × Item) (h : avail ≠ []) :
    drawButton avail words m now ident pick =
      ⟨some (pick avail),
        words.set (pick avail).1
          { (pick avail).2 with seen := (pick avail).2.seen + 1 },
        some (words.set (pick avail).1
          { (pick avail).2 with seen := (pick avail).2.seen + 1 }),
        fun k => if k = ident (pick avail).2 then some now else m k⟩ := by
  cases avail with
  | nil => exact absurd rfl h
  | cons a t => rfl

/-- C2: with item X stamped at time `T` (exposure identity `k`), any
mixture draw strictly before `T + 300` has no candidate with identity `k`
in its drawable set (the entry survives the prune and filters X out);
from `T + 300` on the entry is pruned, so any Stage-A candidate with
identity `k` is in the drawable set and an admissible `random.choice`
can return it. -/
theorem cooldown_correct (words : List Item) (rs : List (String × ℚ))
    (samp : List (ℕ × Item) → ℕ → List (ℕ × Item))
    (shuf : List (ℕ × Item) → List (ℕ × Item)) (m : CooldownMap)
    (now T : ℚ) (ident : Item → String) (k : String)
    (hm : m k = some T) :
    (now < T + COOLDOWN_SECONDS →
      ∀ c ∈ availableWords words rs samp shuf (pruneMap m now) ident,
        ident c.2 ≠ k) ∧
    (T + COOLDOWN_SECONDS ≤ now →
      ∀ c ∈ select_random_mixture words rs samp shuf, ident c.2 = k →
        c ∈ availableWords words rs samp shuf (pruneMap m now) ident ∧
        ∃ pick, PickOK pick ∧
          (drawMixed words rs samp shuf m now ident pick).selected =
            some c) := by
  constructor
  · intro hlt c hc hck
    have hp := (List.mem_filter.1 hc).2
    rw [hck, pruneMap_keep hm hlt] at hp
    simp at hp
  · intro hge c hcs hck
    have hmem : c ∈ availableWords words rs samp shuf (pruneMap m now) ident := by
      refine List.mem_filter.2 ⟨hcs, ?_⟩
      rw [hck, pruneMap_drop hm hge]
      rfl
    refine ⟨hmem, fun l => if c ∈ l then c else l.headD default, ?_, ?_⟩
    · intro l hl
      by_cases hcl : c ∈ l
      · simp [hcl]
      · simpa [hcl, pickHead] using pickHead_ok l hl
    · have hne : availableWords words rs samp shuf (pruneMap m now) ident ≠ [] :=
        List.ne_nil_of_mem hmem
      unfold drawMixed
      rw [drawButton_of_ne_nil _ _ _ _ _ _ hne]
      simp [hmem]

unseal Rat.add Rat.mul Rat.inv Rat.sub in
/-- Closed instance of `cooldown_correct`: item "hund" stamped at `T = 0`;
at `now = 299` nothing with identity "hund" is drawable, at `now = 301`
the Stage-A candidate `(0, hund)` is drawable again. -/
theorem cooldown_correct_witness :
    mapEx "hund" = some 0 ∧
    (∀ c ∈ availableWords wordsEx rsEx sampTake shufId
        (pruneMap mapEx 299) Item.swedish, Item.swedish c.2 ≠ "hund") ∧
    ((0, Item.mk "hund" "dog" "animal" "0%" 0) ∈
      availableWords wordsEx rsEx sampTake shufId
        (pruneMap mapEx 301) Item.swedish) :=
  ⟨by decide,
    (cooldown_correct wordsEx rsEx sampTake shufId mapEx 299 0
      Item.swedish "hund" (by decide)).1 (by decide),
    ((cooldown_correct wordsEx rsEx sampTake shufId mapEx 301 0
      Item.swedish "hund" (by decide)).2 (by decide)
      (0, Item.mk "hund" "dog" "animal" "0%" 0) (by decide) rfl).1⟩

/-! ## Draw postconditions -/

/-- Characterization of a successful mixture draw (shared helper). -/
theorem drawMixed_success (words : List Item) (rs : List (String × ℚ))
    (samp : List (ℕ × Item) → ℕ → List (ℕ × Item))
    (shuf : List (ℕ × Item) → List (ℕ × Item)) (m : CooldownMap)
    (now : ℚ) (ident : Item → String) (pick : List (ℕ × Item) → ℕ × Item)
    (hs : SampOK samp) (hsh : ShufOK shuf) (hp : PickOK pick)
    (hne : availableWords words rs samp shuf (pruneMap m now) ident ≠ []) :
    ∃ sel ∈ availableWords words rs samp shuf (pruneMap m now) ident,
      (drawMixed words rs samp shuf m now ident pick).selected = some sel ∧
      words[sel.1]? = some sel.2 ∧
      (drawMixed words rs samp shuf m now ident pick).words =
        words.set sel.1 { sel.2 with seen := sel.2.seen + 1 } ∧
      (drawMixed words rs samp shuf m now ident pick).words[sel.1]? =
        some { sel.2 with seen := sel.2.seen + 1 } ∧
      (drawMixed words rs samp shuf m now ident pick).persisted =
        some ((drawMixed words rs samp shuf m now ident pick).words) ∧
      (drawMixed words rs samp shuf m now ident pick).cooldown
        (ident sel.2) = some now ∧
      (∀ k2, k2 ≠ ident sel.2 →
        (drawMixed words rs samp shuf m now ident pick).cooldown k2 =
          pruneMap m now k2) := by
  set avail := availableWords words rs samp shuf (pruneMap m now) ident with havail
  have hsel : pick avail ∈ avail := hp avail hne
  have hsen : pick avail ∈ words.enum :=
    (mem_select_enum hs hsh (List.mem_filter.1 hsel).1).1
  have hget : words[(pick avail).1]? = some (pick avail).2 :=
    List.mem_enum_iff_getElem?.1 hsen
  have hlt : (pick avail).1 < words.length := (List.getElem?_eq_some.1 hget).1
  have hdm : drawMixed words rs samp shuf m now ident pick =
      drawButton avail words (pruneMap m now) now ident pick := rfl
  rw [hdm, drawButton_of_ne_nil _ _ _ _ _ _ hne]
  refine ⟨pick avail, hsel, rfl, hget, rfl, ?_, rfl, ?_, ?_⟩
  · exact List.getElem?_set_self hlt
  · show (if ident (pick avail).2 = ident (pick avail).2 then some now else _) = _
    rw [if_pos rfl]
  · intro k2 hk2
    show (if k2 = ident (pick avail).2 then some now else pruneMap m now k2) = _
    rw [if_neg hk2]

/-- C5: a mixture draw with a non-empty drawable set selects one candidate
from exactly that set, increments precisely its `seen` by 1, persists the
full updated vocabulary, and stamps the session map at the chosen item's
exposure identity with the current time (all other keys untouched beyond
the query-time prune). -/
theorem successful_draw (words : List Item) (rs : List (String × ℚ))
    (samp : List (ℕ × Item) → ℕ → List (ℕ × Item))
    (shuf : List (ℕ × Item) → List (ℕ × Item)) (m : CooldownMap)
    (now : ℚ) (ident : Item → String) (pick : List (ℕ × Item) → ℕ × Item)
    (hs : SampOK samp) (hsh : ShufOK shuf) (hp : PickOK pick)
    (hne : availableWords words rs samp shuf (pruneMap m now) ident ≠ []) :
    ∃ sel ∈ availableWords words rs samp shuf (pruneMap m now) ident,
      (drawMixed words rs samp shuf m now ident pick).selected = some sel ∧
      words[sel.1]? = some sel.2 ∧
      (drawMixed words rs samp shuf m now ident pick).words =
        words.set sel.1 { sel.2 with seen := sel.2.seen + 1 } ∧
      (drawMixed words rs samp shuf m now ident pick).words[sel.1]? =
        some { sel.2 with seen := sel.2.seen + 1 } ∧
      (drawMixed words rs samp shuf m now ident pick).persisted =
        some ((drawMixed words rs samp shuf m now ident pick).words) ∧
      (drawMixed words rs samp shuf m now ident pick).cooldown
        (ident sel.2) = some now ∧
      (∀ k2, k2 ≠ ident sel.2 →
        (drawMixed words rs samp shuf m now ident pick).cooldown k2 =
          pruneMap m now k2) :=
  drawMixed_success words rs samp shuf m now ident pick hs hsh hp hne

unseal Rat.mul Rat.inv Rat.sub in
/-- Closed instance of `successful_draw` on the one-item vocabulary with an
empty session map at `now = 50`. -/
theorem successful_draw_witness :
    availableWords wordsEx rsEx sampTake shufId
      (pruneMap (fun _ => none) 50) Item.swedish ≠ [] ∧
    ∃ sel ∈ availableWords wordsEx rsEx sampTake shufId
        (pruneMap (fun _ => none) 50) Item.swedish,
      (drawMixed wordsEx rsEx sampTake shufId (fun _ => none) 50
        Item.swedish pickHead).selected = some sel ∧
      wordsEx[sel.1]? = some sel.2 ∧
      (drawMixed wordsEx rsEx sampTake shufId (fun _ => none) 50
        Item.swedish pickHead).words =
        wordsEx.set sel.1 { sel.2 with seen := sel.2.seen + 1 } ∧
      (drawMixed wordsEx rsEx sampTake shufId (fun _ => none) 50
        Item.swedish pickHead).words[sel.1]? =
        some { sel.2 with seen := sel.2.seen + 1 } ∧
      (drawMixed wordsEx rsEx sampTake shufId (fun _ => none) 50
        Item.swedish pickHead).persisted =
        some ((drawMixed wordsEx rsEx sampTake shufId (fun _ => none) 50
          Item.swedish pickHead).words) ∧
      (drawMixed wordsEx rsEx sampTake shufId (fun _ => none) 50
        Item.swedish pickHead).cooldown (Item.swedish sel.2) = some 50 ∧
      (∀ k2, k2 ≠ Item.swedish sel.2 →
        (drawMixed wordsEx rsEx sampTake shufId (fun _ => none) 50
          Item.swedish pickHead).cooldown k2 =
          pruneMap (fun _ => none) 50 k2) :=
  ⟨by decide,
    successful_draw wordsEx rsEx sampTake shufId (fun _ => none) 50
      Item.swedish pickHead sampTake_ok shufId_ok pickHead_ok (by decide)⟩

/-- Characterization of an exhausted mixture draw (shared helper). -/
theorem drawMixed_exhaust (words : List Item) (rs : List (String × ℚ))
    (samp : List (ℕ × Item) → ℕ → List (ℕ × Item))
    (shuf : List (ℕ × Item) → List (ℕ × Item)) (m : CooldownMap)
    (now : ℚ) (ident : Item → String) (pick : List (ℕ × Item) → ℕ × Item)
    (h : availableWords words rs samp shuf (pruneMap m now) ident = []) :
    drawMixed words rs samp shuf m now ident pick =
      ⟨none, words, none, pruneMap m now⟩ ∧
    (∀ k T, m k = some T → now < T + COOLDOWN_SECONDS →
      (drawMixed words rs samp shuf m now ident pick).cooldown k = some T) ∧
    (∀ k, (drawMixed words rs samp shuf m now ident pick).cooldown k = m k ∨
      (drawMixed words rs samp shuf m now ident pick).cooldown k = none) := by
  have h1 : drawMixed words rs samp shuf m now ident pick =
      ⟨none, words, none, pruneMap m now⟩ := by
    unfold drawMixed
    rw [h]
    rfl
  refine ⟨h1, ?_, ?_⟩
  · intro k T hk hT
    rw [h1]
    exact pruneMap_keep hk hT
  · intro k
    rw [h1]
    show pruneMap m now k = m k ∨ pruneMap m now k = none
    cases hk : m k with
    | none => left; simp [pruneMap, hk]
    | some t =>
        by_cases hc : now - t < COOLDOWN_SECONDS
        · left; simp [pruneMap, hk, hc]
        · right; simp [pruneMap, hk, hc]

/-- C6: with an empty drawable set the draw returns the empty signal, no
item is mutated, nothing is written to the store, and the cooldown map is
neither stamped nor modified at any surviving entry — it is exactly the
pruned session map (entries still inside the window are kept verbatim;
no entry is ever added or restamped). -/
theorem exhaustion_signal (words : List Item) (rs : List (String × ℚ))
    (samp : List (ℕ × Item) → ℕ → List (ℕ × Item))
    (shuf : List (ℕ × Item) → List (ℕ × Item)) (m : CooldownMap)
    (now : ℚ) (ident : Item → String) (pick : List (ℕ × Item) → ℕ × Item)
    (h : availableWords words rs samp shuf (pruneMap m now) ident = []) :
    drawMixed words rs samp shuf m now ident pick =
      ⟨none, words, none, pruneMap m now⟩ ∧
    (∀ k T, m k = some T → now < T + COOLDOWN_SECONDS →
      (drawMixed words rs samp shuf m now ident pick).cooldown k = some T) ∧
    (∀ k, (drawMixed words rs samp shuf m now ident pick).cooldown k = m k ∨
      (drawMixed words rs samp shuf m now ident pick).cooldown k = none) :=
  drawMixed_exhaust words rs samp shuf m now ident pick h

unseal Rat.mul Rat.inv Rat.sub Rat.add in
/-- Closed instance of `exhaustion_signal`: the only item is in cooldown at
`now = 100` (stamped at 0), so the draw signals empty and changes nothing;
the surviving stamp is kept verbatim. -/
theorem exhaustion_signal_witness :
    availableWords wordsEx rsEx sampTake shufId
      (pruneMap mapEx 100) Item.swedish = [] ∧
    (drawMixed wordsEx rsEx sampTake shufId mapEx 100
      Item.swedish pickHead).selected = none ∧
    (drawMixed wordsEx rsEx sampTake shufId mapEx 100
      Item.swedish pickHead).words = wordsEx ∧
    (drawMixed wordsEx rsEx sampTake shufId mapEx 100
      Item.swedish pickHead).persisted = none ∧
    (drawMixed wordsEx rsEx sampTake shufId mapEx 100
      Item.swedish pickHead).cooldown "hund" = some 0 :=
  ⟨by decide,
    congrArg DrawOutcome.selected
      ((exhaustion_signal wordsEx rsEx sampTake shufId mapEx 100
        Item.swedish pickHead (by decide)).1),
    congrArg DrawOutcome.words
      ((exhaustion_signal wordsEx rsEx sampTake shufId mapEx 100
        Item.swedish pickHead (by decide)).1),
    congrArg DrawOutcome.persisted
      ((exhaustion_signal wordsEx rsEx sampTake shufId mapEx 100
        Item.swedish pickHead (by decide)).1),
    (exhaustion_signal wordsEx rsEx sampTake shufId mapEx 100
      Item.swedish pickHead (by decide)).2.1 "hund" 0 (by decide) (by decide)⟩

theorem mem_categoryFiltered {words : List Item} {c : String}
    {iw : ℕ × Item} :
    iw ∈ categoryFiltered words c ↔ iw ∈ words.enum ∧ iw.2.category = c := by
  constructor
  · intro h
    have h1 := List.mem_filter.1 h
    exact ⟨h1.1, by simpa using h1.2⟩
  · rintro ⟨h1, h2⟩
    exact List.mem_filter.2 ⟨h1, by simpa using h2⟩

/-- Characterization of the category-scoped draw (shared helper). -/
theorem categoryDraw_spec (words : List Item) (c : String) (m : CooldownMap)
    (pick : List (ℕ × Item) → ℕ × Item) (hp : PickOK pick) :
    (∀ iw : ℕ × Item, iw ∈ categoryFiltered words c ↔
      iw ∈ words.enum ∧ iw.2.category = c) ∧
    (drawByCategory words c m pick).cooldown = m ∧
    (categoryFiltered words c = [] →
      drawByCategory words c m pick = ⟨none, words, none, m⟩) ∧
    (categoryFiltered words c ≠ [] →
      ∃ sel ∈ categoryFiltered words c,
        (drawByCategory words c m pick).selected = some sel ∧
        words[sel.1]? = some sel.2 ∧
        (drawByCategory words c m pick).words =
          words.set sel.1 { sel.2 with seen := sel.2.seen + 1 } ∧
        (drawByCategory words c m pick).words[sel.1]? =
          some { sel.2 with seen := sel.2.seen + 1 } ∧
        (drawByCategory words c m pick).persisted =
          some ((drawByCategory words c m pick).words)) := by
  refine ⟨fun _ => mem_categoryFiltered, ?_, ?_, ?_⟩
  · unfold drawByCategory
    cases hif : (categoryFiltered words c).isEmpty with
    | true => simp
    | false => simp
  · intro h
    unfold drawByCategory
    rw [h]
    rfl
  · intro hne
    have hie : (categoryFiltered words c).isEmpty = false := by
      cases hfe : categoryFiltered words c with
      | nil => exact absurd hfe hne
      | cons a t => simp [hfe]
    have hsel : pick (categoryFiltered words c) ∈ categoryFiltered words c :=
      hp _ hne
    have hget : words[(pick (categoryFiltered words c)).1]? =
        some (pick (categoryFiltered words c)).2 :=
      List.mem_enum_iff_getElem?.1 (mem_categoryFiltered.1 hsel).1
    have hlt : (pick (categoryFiltered words c)).1 < words.length :=
      (List.getElem?_eq_some.1 hget).1
    refine ⟨pick (categoryFiltered words c), hsel, ?_, hget, ?_, ?_, ?_⟩
    · unfold drawByCategory
      rw [hie]
      rfl
    · unfold drawByCategory
      rw [hie]
      rfl
    · unfold drawByCategory
      rw [hie]
      show (words.set _ _)[_]? = _
      exact List.getElem?_set_self hlt
    · unfold drawByCategory
      rw [hie]
      rfl

/-- C8: the category draw chooses among exactly the occurrences whose
`category` equals `c`; the ratio mixture plays no part and the cooldown
map is neither consulted nor stamped (returned untouched in both
branches); on success the chosen item's `seen` is incremented by 1 and the
updated vocabulary persisted; with no match it returns the empty signal
with no mutation. -/
theorem category_draw (words : List Item) (c : String) (m : CooldownMap)
    (pick : List (ℕ × Item) → ℕ × Item) (hp : PickOK pick) :
    (∀ iw : ℕ × Item, iw ∈ categoryFiltered words c ↔
      iw ∈ words.enum ∧ iw.2.category = c) ∧
    (drawByCategory words c m pick).cooldown = m ∧
    (categoryFiltered words c = [] →
      drawByCategory words c m pick = ⟨none, words, none, m⟩) ∧
    (categoryFiltered words c ≠ [] →
      ∃ sel ∈ categoryFiltered words c,
        (drawByCategory words c m pick).selected = some sel ∧
        words[sel.1]? = some sel.2 ∧
        (drawByCategory words c m pick).words =
          words.set sel.1 { sel.2 with seen := sel.2.seen + 1 } ∧
        (drawByCategory words c m pick).words[sel.1]? =
          some { sel.2 with seen := sel.2.seen + 1 } ∧
        (drawByCategory words c m pick).persisted =
          some ((drawByCategory words c m pick).words)) :=
  categoryDraw_spec words c m pick hp

/-- Closed instance of `category_draw`: drawing from category "animal" on
the one-item vocabulary succeeds; the cooldown map is untouched. -/
theorem category_draw_witness :
    categoryFiltered wordsEx "animal" ≠ [] ∧
    (drawByCategory wordsEx "animal" mapEx pickHead).cooldown = mapEx ∧
    ∃ sel ∈ categoryFiltered wordsEx "animal",
      (drawByCategory wordsEx "animal" mapEx pickHead).selected = some sel ∧
      wordsEx[sel.1]? = some sel.2 ∧
      (drawByCategory wordsEx "animal" mapEx pickHead).words =
        wordsEx.set sel.1 { sel.2 with seen := sel.2.seen + 1 } ∧
      (drawByCategory wordsEx "animal" mapEx pickHead).words[sel.1]? =
        some { sel.2 with seen := sel.2.seen + 1 } ∧
      (drawByCategory wordsEx "animal" mapEx pickHead).persisted =
        some ((drawByCategory wordsEx "animal" mapEx pickHead).words) :=
  ⟨by decide,
    (category_draw wordsEx "animal" mapEx pickHead pickHead_ok).2.1,
    (category_draw wordsEx "animal" mapEx pickHead pickHead_ok).2.2.2
      (by decide)⟩

/-- C10 (implicit): on any successful draw — mixture or category — only the
chosen occurrence changes and only in its `seen` field (bumped by exactly
1); length, order, every other index, and the chosen item's other fields
are all preserved. -/
theorem draw_frame (words : List Item) (rs : List (String × ℚ))
    (samp : List (ℕ × Item) → ℕ → List (ℕ × Item))
    (shuf : List (ℕ × Item) → List (ℕ × Item)) (m : CooldownMap)
    (now : ℚ) (ident : Item → String) (c : String)
    (pick : List (ℕ × Item) → ℕ × Item)
    (hs : SampOK samp) (hsh : ShufOK shuf) (hp : PickOK pick) :
    (∀ sel, (drawMixed words rs samp shuf m now ident pick).selected =
        some sel →
      frameCond words (drawMixed words rs samp shuf m now ident pick).words
        sel) ∧
    (∀ sel, (drawByCategory words c m pick).selected = some sel →
      frameCond words (drawByCategory words c m pick).words sel) := by
  constructor
  · intro sel hssel
    by_cases hne : availableWords words rs samp shuf (pruneMap m now) ident = []
    · rw [(drawMixed_exhaust words rs samp shuf m now ident pick hne).1] at hssel
      exact absurd hssel (by simp)
    · obtain ⟨s2, hmem, hsel2, hget, hwords, hgetnew, _⟩ :=
        drawMixed_success words rs samp shuf m now ident pick hs hsh hp hne
      have hseq : s2 = sel := by
        rw [hssel] at hsel2
        exact (Option.some_injective _ hsel2).symm
      subst hseq
      refine ⟨?_, hget, hgetnew, rfl, rfl, rfl, rfl, rfl, ?_⟩
      · rw [hwords]
        exact List.length_set words s2.1 _
      · intro j hj
        rw [hwords]
        exact List.getElem?_set_ne (Ne.symm hj)
  · intro sel hssel
    by_cases hne : categoryFiltered words c = []
    · rw [((categoryDraw_spec words c m pick hp).2.2.1 hne)] at hssel
      exact absurd hssel (by simp)
    · obtain ⟨s2, hmem, hsel2, hget, hwords, hgetnew, _⟩ :=
        (categoryDraw_spec words c m pick hp).2.2.2 hne
      have hseq : s2 = sel := by
        rw [hssel] at hsel2
        exact (Option.some_injective _ hsel2).symm
      subst hseq
      refine ⟨?_, hget, hgetnew, rfl, rfl, rfl, rfl, rfl, ?_⟩
      · rw [hwords]
        exact List.length_set words s2.1 _
      · intro j hj
        rw [hwords]
        exact List.getElem?_set_ne (Ne.symm hj)

unseal Rat.mul Rat.inv Rat.sub in
/-- Closed instance of `draw_frame`: the concrete mixture draw at `now = 50`
selects occurrence `(0, hund)` and satisfies the frame condition. -/
theorem draw_frame_witness :
    (drawMixed wordsEx rsEx sampTake shufId (fun _ => none) 50
      Item.swedish pickHead).selected =
        some (0, Item.mk "hund" "dog" "animal" "0%" 0) ∧
    frameCond wordsEx
      (drawMixed wordsEx rsEx sampTake shufId (fun _ => none) 50
        Item.swedish pickHead).words
      (0, Item.mk "hund" "dog" "animal" "0%" 0) :=
  ⟨by decide,
    (draw_frame wordsEx rsEx sampTake shufId (fun _ => none) 50
      Item.swedish "animal" pickHead sampTake_ok shufId_ok pickHead_ok).1
      (0, Item.mk "hund" "dog" "animal" "0%" 0) (by decide)⟩

/-! ## Bulk update lemmas -/

theorem bulk_foldl_getElem (newL : String) (newS : ℕ) :
    ∀ (is : List ℕ) (ws : List Item), is.Nodup →
      ∀ j : ℕ,
        (is.foldl (fun ws i =>
          ws.set i { ws.getD i default with label := newL, seen := newS })
            ws)[j]? =
          if j ∈ is then
            ws[j]?.map (fun w => { w with label := newL, seen := newS })
          else ws[j]? := by
  intro is
  induction is with
  | nil =>
      intro ws _ j
      simp
  | cons a t ih =>
      intro ws hnd j
      have hand := List.nodup_cons.1 hnd
      rw [List.foldl_cons, ih _ hand.2 j]
      by_cases hjt : j ∈ t
      · have hja : j ≠ a := fun h => hand.1 (h ▸ hjt)
        rw [if_pos hjt, if_pos (List.mem_cons.2 (Or.inr hjt)),
          List.getElem?_set_ne (Ne.symm hja)]
      · by_cases hja : j = a
        · subst hja
          rw [if_neg hjt, if_pos (List.mem_cons.2 (Or.inl rfl))]
          by_cases hlt : j < ws.length
          · rw [List.getElem?_set_self hlt, List.getElem?_eq_getElem hlt,
              List.getD_eq_getElem?_getD, List.getElem?_eq_getElem hlt]
            rfl
          · have hn : ws[j]? = none := List.getElem?_eq_none (Nat.le_of_not_lt hlt)
            rw [List.getElem?_set, if_pos rfl, if_neg hlt, hn]
            rfl
        · rw [if_neg hjt,
            if_neg (by simp [hja, hjt]),
            List.getElem?_set_ne (Ne.symm hja)]

theorem bulk_foldl_length (newL : String) (newS : ℕ) :
    ∀ (is : List ℕ) (ws : List Item),
      (is.foldl (fun ws i =>
        ws.set i { ws.getD i default with label := newL, seen := newS })
          ws).length = ws.length := by
  intro is
  induction is with
  | nil => intro ws; rfl
  | cons a t ih =>
      intro ws
      rw [List.foldl_cons, ih, List.length_set]

theorem mem_selectedIndices {words : List Item} {sel : List String}
    {minS maxS : ℕ} {checked : ℕ → Bool} {j : ℕ} :
    j ∈ selectedIndices words sel minS maxS checked ↔
      j < words.length ∧
        (eligibleItem sel minS maxS (words.getD j default) && checked j) =
          true := by
  rw [selectedIndices, List.mem_filter, List.mem_range]

/-- C3: the bulk update mutates exactly the items that are both eligible
(empty label filter, or label in the filter, or `seen` within the range —
a disjunction) and explicitly checked, setting their `label` and `seen` to
the targets; every other item, eligible-but-unchecked ones included, is
untouched, the length is preserved, and the whole updated vocabulary is
persisted once at the end. -/
theorem bulk_update_precision (words : List Item) (sel : List String)
    (minS maxS : ℕ) (checked : ℕ → Bool) (newL : String) (newS : ℕ) :
    (applyBulkUpdate words sel minS maxS checked newL newS).words.length =
      words.length ∧
    (applyBulkUpdate words sel minS maxS checked newL newS).persisted =
      some ((applyBulkUpdate words sel minS maxS checked newL newS).words) ∧
    (∀ (j : ℕ) (w : Item), words[j]? = some w →
      (applyBulkUpdate words sel minS maxS checked newL newS).words[j]? =
        if eligibleItem sel minS maxS w && checked j then
          some { w with label := newL, seen := newS }
        else some w) := by
  have hnd : (selectedIndices words sel minS maxS checked).Nodup :=
    (List.nodup_range words.length).filter _
  refine ⟨bulk_foldl_length newL newS _ words, rfl, ?_⟩
  intro j w hw
  have hlt : j < words.length := (List.getElem?_eq_some.1 hw).1
  have hgd : words.getD j default = w := by
    rw [List.getD_eq_getElem?_getD, hw]
    rfl
  show (List.foldl _ words _)[j]? = _
  rw [bulk_foldl_getElem newL newS _ words hnd j]
  by_cases hc : (eligibleItem sel minS maxS w && checked j) = true
  · rw [if_pos (mem_selectedIndices.2 ⟨hlt, by rw [hgd]; exact hc⟩), hw,
      if_pos hc]
    rfl
  · rw [if_neg (fun hmem => hc (by
      rw [← hgd]
      exact (mem_selectedIndices.1 hmem).2)), if_neg hc, hw]

/-- Closed instance of `bulk_update_precision`: the spec's two-item
scenario — seen-range `[0, 2]`, empty label filter, only the first item
checked — mutates exactly the first item. -/
theorem bulk_update_precision_witness :
    (applyBulkUpdate
      [⟨"bo", "live", "verbs", "0%", 1⟩, ⟨"ga", "walk", "verbs", "50%", 9⟩]
      [] 0 2 (fun i => i == 0) "75%" 5).words[0]? =
        some ⟨"bo", "live", "verbs", "75%", 5⟩ ∧
    (applyBulkUpdate
      [⟨"bo", "live", "verbs", "0%", 1⟩, ⟨"ga", "walk", "verbs", "50%", 9⟩]
      [] 0 2 (fun i => i == 0) "75%" 5).words[1]? =
        some ⟨"ga", "walk", "verbs", "50%", 9⟩ := by
  constructor
  · have h := (bulk_update_precision
      [⟨"bo", "live", "verbs", "0%", 1⟩, ⟨"ga", "walk", "verbs", "50%", 9⟩]
      [] 0 2 (fun i => i == 0) "75%" 5).2.2 0
      ⟨"bo", "live", "verbs", "0%", 1⟩ (by decide)
    rw [h]
    decide
  · have h := (bulk_update_precision
      [⟨"bo", "live", "verbs", "0%", 1⟩, ⟨"ga", "walk", "verbs", "50%", 9⟩]
      [] 0 2 (fun i => i == 0) "75%" 5).2.2 1
      ⟨"ga", "walk", "verbs", "50%", 9⟩ (by decide)
    rw [h]
    decide

end Flashcards
